import Mathlib

/-!
Verification of the link-checker core in `check_links.py`.

The probe engine (`check_one_url`) is embedded as a fuel-based state
machine over an abstract environment that supplies, for every attempt
index, the result of the lightweight HEAD probe and of the fallback GET
probe.  The aggregator (`link_map` construction in `main`) and the
coordinator (`check_all_links`) are embedded as pure list functions.
Machine-level concerns (the asyncio event loop, aiohttp internals) are
abstracted away; the control flow, the produced values and the request
trace follow the Python source line by line.
-/

/-- Result of the lightweight HEAD probe of one attempt.  A response
carries the numeric code and the optional server reason phrase (Python
`resp.reason`, with falsy values mapped to `none` since the source only
reads it through `resp.reason or default`).  The three error
constructors model the exception classes caught by the first
`except (aiohttp.ClientError, asyncio.TimeoutError, OSError)` clause;
all of them make the code fall through to the GET probe. -/
inductive HeadResult where
  | response (status : Nat) (reason : Option String)
  | clientError
  | timeoutError
  | osError
deriving Repr, DecidableEq

/-- Result of the fallback GET probe of one attempt, mirroring the four
except clauses of the source: `asyncio.TimeoutError`,
`aiohttp.ClientConnectorError`, `aiohttp.ClientError as e`,
`OSError as e`. -/
inductive GetResult where
  | response (status : Nat) (reason : Option String)
  | timeoutError
  | connectorError
  | clientError (msg : String)
  | osError (msg : String)
deriving Repr, DecidableEq

/-- The pair returned by `check_one_url`: `(status_code: int|None, reason: str)`. -/
structure Outcome where
  status : Option Nat
  reason : String
deriving Repr, DecidableEq

/-- Trace of the observable actions of one `check_one_url` run: how many
HEAD requests and GET requests were issued, and the list of backoff
sleeps (`await asyncio.sleep(2)`) in order. -/
structure ProbeTrace where
  heads : Nat
  gets : Nat
  backoffs : List Nat
deriving Repr, DecidableEq

/-- An environment assigns to every attempt index the behaviour of the
network on that attempt: what the HEAD request yields and what the GET
request would yield (the latter is consulted only if the code actually
issues the GET). -/
def ProbeEnv : Type := Nat → HeadResult × GetResult

/-- Configuration constant `RETRY_COUNT = 1` of the source. -/
def RETRY_COUNT : Int := 1

/-- Configuration constant `CONCURRENCY = 20` of the source. -/
def CONCURRENCY : Nat := 20

/-- Python truthiness of `resp.reason or default`: the reason string if
one was supplied, the default otherwise. -/
def reasonOr (r : Option String) (d : String) : String := r.getD d

/-- The body of the `for attempt in range(1 + retries)` loop of
`check_one_url`, recursing on the remaining number of iterations
(`fuel`).  Returns `none` exactly when the loop runs out of iterations
without hitting a `return`, together with the trace of requests and
backoff sleeps performed.  Each branch mirrors one line of the source:

* HEAD response with code `< 400`: `return resp.status, "OK"`;
* HEAD response `405`: `raise aiohttp.ClientError` which the first
  except clause catches, falling through to the GET probe;
* other HEAD response `>= 400`: `return resp.status, resp.reason or "Error"`;
* HEAD exception: `pass`, fall through to the GET probe;
* GET response: `return resp.status, resp.reason or ("OK" if resp.status < 400 else "Error")`;
* GET exception: if `attempt < retries` then `await asyncio.sleep(2)`
  and `continue`, else return the terminal transient outcome. -/
def checkFrom (env : ProbeEnv) (retries : Int) : Nat → Nat → Option Outcome × ProbeTrace
  | _, 0 => (none, ⟨0, 0, []⟩)
  | attempt, fuel + 1 =>
    let next := checkFrom env retries (attempt + 1) fuel
    let retryOr : Outcome → Option Outcome × ProbeTrace := fun o =>
      if (attempt : Int) < retries then
        (next.1, ⟨next.2.heads + 1, next.2.gets + 1, 2 :: next.2.backoffs⟩)
      else (some o, ⟨1, 1, []⟩)
    let getStep : Option Outcome × ProbeTrace :=
      match (env attempt).2 with
      | .response s r => (some ⟨some s, reasonOr r (if s < 400 then "OK" else "Error")⟩, ⟨1, 1, []⟩)
      | .timeoutError => retryOr ⟨none, "Timeout"⟩
      | .connectorError => retryOr ⟨none, "Connection failed"⟩
      | .clientError m => retryOr ⟨none, "Client error: " ++ m⟩
      | .osError m => retryOr ⟨none, "OS error: " ++ m⟩
    match (env attempt).1 with
    | .response s r =>
      if s < 400 then (some ⟨some s, "OK"⟩, ⟨1, 0, []⟩)
      else if s = 405 then getStep
      else (some ⟨some s, reasonOr r "Error"⟩, ⟨1, 0, []⟩)
    | .clientError => getStep
    | .timeoutError => getStep
    | .osError => getStep

/-- `check_one_url`: run the attempt loop `range(1 + retries)` from
attempt `0`; if the loop falls through, `return None, "Unknown error"`. -/
def check_one_url (env : ProbeEnv) (retries : Int) : Outcome × ProbeTrace :=
  let r := checkFrom env retries 0 (1 + retries).toNat
  (r.1.getD ⟨none, "Unknown error"⟩, r.2)

example :
    check_one_url (fun _ => (.response 404 (some "Not Found"), .timeoutError)) RETRY_COUNT
      = (⟨some 404, "Not Found"⟩, ⟨1, 0, []⟩) := by decide

example :
    check_one_url (fun _ => (.timeoutError, .timeoutError)) RETRY_COUNT
      = (⟨none, "Timeout"⟩, ⟨2, 2, [2]⟩) := by decide

example :
    check_one_url (fun _ => (.response 405 none, .response 200 (some "Fine"))) RETRY_COUNT
      = (⟨some 200, "Fine"⟩, ⟨1, 1, []⟩) := by decide

/-- Helper: when every attempt times out on both probes, the loop from
any starting attempt performs one two-phase attempt per remaining
iteration, sleeping 2 units between consecutive attempts, and ends in
the terminal Timeout outcome. -/
lemma checkFrom_all_timeout (env : ProbeEnv) (retries : Int)
    (henv : ∀ i, env i = (HeadResult.timeoutError, GetResult.timeoutError)) :
    ∀ (fuel attempt : Nat), (attempt : Int) + (fuel : Int) = 1 + retries → 1 ≤ fuel →
      checkFrom env retries attempt fuel
        = (some ⟨none, "Timeout"⟩, ⟨fuel, fuel, List.replicate (fuel - 1) 2⟩) := by
  intro fuel
  induction fuel with
  | zero => intro attempt h1 h2; omega
  | succ k ih =>
    intro attempt hinv _
    by_cases hlt : (attempt : Int) < retries
    · have hk : 1 ≤ k := by omega
      have hnext := ih (attempt + 1) (by push_cast; omega) hk
      have hrep : List.replicate k 2 = 2 :: List.replicate (k - 1) 2 := by
        conv_lhs => rw [show k = (k - 1) + 1 from by omega]
        rw [List.replicate_succ]
      simp only [checkFrom, henv, hnext, hlt, if_true, Nat.add_sub_cancel, hrep]
    · simp only [checkFrom, henv, hlt, if_false]
      have : k = 0 := by omega
      subst this
      simp

/-- C1: a lightweight (HEAD) probe response with code at least 400 and
different from 405 makes `check_one_url` return the terminal Outcome
with that status and the server-supplied reason phrase (or "Error" when
none was supplied), after exactly one attempt: one HEAD request, no
fallback GET request, no backoff sleep. -/
theorem C1_definitive_head_response (env : ProbeEnv) (retries : Int) (s : Nat)
    (r : Option String) (hr : 0 ≤ retries) (hh : (env 0).1 = HeadResult.response s r)
    (h4 : 400 ≤ s) (h5 : s ≠ 405) :
    check_one_url env retries = (⟨some s, reasonOr r "Error"⟩, ⟨1, 0, []⟩) := by
  have h400 : ¬ s < 400 := by omega
  have hn : (1 + retries).toNat = (1 + retries).toNat - 1 + 1 := by omega
  rw [check_one_url, hn, checkFrom, hh]
  simp [h400, h5]

/-- C1 witness: a 404 response with reason phrase "Not Found" on the
HEAD probe of the first attempt yields status 404 after one attempt. -/
theorem C1_witness :
    check_one_url (fun _ => (.response 404 (some "Not Found"), .timeoutError)) RETRY_COUNT
      = (⟨some 404, "Not Found"⟩, ⟨1, 0, []⟩) := by
  have h := C1_definitive_head_response
    (fun _ => (.response 404 (some "Not Found"), .timeoutError)) RETRY_COUNT 404
    (some "Not Found") (by decide) rfl (by omega) (by omega)
  simpa [reasonOr] using h

/-- C2: when every attempt ends in a timeout on both probes,
`check_one_url` performs exactly `1 + retry_count` two-phase attempts
(one HEAD and one GET each), sleeps the fixed 2-unit backoff between
consecutive attempts, and returns the terminal Outcome with absent
status and reason "Timeout". -/
theorem C2_all_timeout_retry_bound (env : ProbeEnv) (retries : Int) (hr : 0 ≤ retries)
    (henv : ∀ i, env i = (HeadResult.timeoutError, GetResult.timeoutError)) :
    check_one_url env retries
      = (⟨none, "Timeout"⟩,
         ⟨(1 + retries).toNat, (1 + retries).toNat,
          List.replicate ((1 + retries).toNat - 1) 2⟩) := by
  have h := checkFrom_all_timeout env retries henv (1 + retries).toNat 0 (by omega) (by omega)
  rw [check_one_url, h]
  rfl

/-- C2 witness: with the default `retry_count = 1`, an always-timing-out
target is attempted exactly twice, with one 2-unit backoff in between,
and produces the Timeout outcome with absent status. -/
theorem C2_witness :
    check_one_url (fun _ => (.timeoutError, .timeoutError)) RETRY_COUNT
      = (⟨none, "Timeout"⟩, ⟨2, 2, [2]⟩) := by
  have h := C2_all_timeout_retry_bound (fun _ => (.timeoutError, .timeoutError)) RETRY_COUNT
    (by decide) (fun _ => rfl)
  simpa using h

/-- C3 counterexample: a target answering 405 on the HEAD probe and 200
with server reason phrase "Fine" on the fallback GET yields the Outcome
(status 200, reason "Fine"): the fallback returned 200 yet the reason is
not "OK", refuting the claim as stated. -/
theorem C3_counterexample :
    (check_one_url (fun _ => (.response 405 none, .response 200 (some "Fine"))) RETRY_COUNT).1
        = ⟨some 200, "Fine"⟩ ∧
    (check_one_url (fun _ => (.response 405 none, .response 200 (some "Fine"))) RETRY_COUNT).1.reason
        ≠ "OK" := by
  constructor
  · decide
  · decide

/-- C3 amended: a 405 on the HEAD probe escalates to the fallback GET
probe within the same attempt (one HEAD, one GET, no backoff); if the
fallback returns 200, the Outcome has status 200 and reason equal to
the server-supplied reason phrase, or "OK" when none was supplied,
consuming one attempt, not two. -/
theorem C3_escalation_405 (env : ProbeEnv) (retries : Int) (r405 r2 : Option String)
    (hr : 0 ≤ retries) (hh : (env 0).1 = HeadResult.response 405 r405)
    (hg : (env 0).2 = GetResult.response 200 r2) :
    check_one_url env retries = (⟨some 200, reasonOr r2 "OK"⟩, ⟨1, 1, []⟩) := by
  have hn : (1 + retries).toNat = (1 + retries).toNat - 1 + 1 := by omega
  rw [check_one_url, hn, checkFrom, hh]
  simp [hg]

/-- C3 amended witness: HEAD 405 then GET 200 without a server reason
phrase gives status 200, reason "OK", in a single attempt. -/
theorem C3_witness :
    check_one_url (fun _ => (.response 405 none, .response 200 none)) RETRY_COUNT
      = (⟨some 200, "OK"⟩, ⟨1, 1, []⟩) := by
  have h := C3_escalation_405 (fun _ => (.response 405 none, .response 200 none)) RETRY_COUNT
    none none (by decide) rfl rfl
  simpa [reasonOr] using h

/-- Helper: on the last iteration of the attempt loop (and on every
earlier one), every branch of the two-phase state machine either
returns a terminal Outcome or continues to a later iteration, so the
loop result is `some` whenever at least one iteration runs and the
iteration count places the final attempt at index at least `retries`. -/
lemma checkFrom_isSome (env : ProbeEnv) (retries : Int) :
    ∀ (fuel attempt : Nat), (attempt : Int) + (fuel : Int) = 1 + retries → 1 ≤ fuel →
      (checkFrom env retries attempt fuel).1.isSome = true := by
  intro fuel
  induction fuel with
  | zero => intro attempt h1 h2; omega
  | succ k ih =>
    intro attempt hinv _
    by_cases hlt : (attempt : Int) < retries
    · have hk : 1 ≤ k := by omega
      have hnext := ih (attempt + 1) (by push_cast; omega) hk
      rw [checkFrom]
      rcases h1 : (env attempt).1 with ⟨s, r⟩ | _ | _ | _ <;>
        rcases h2 : (env attempt).2 with ⟨s2, r2⟩ | _ | _ | _ <;>
          (repeat' split) <;> first | rfl | exact hnext
    · rw [checkFrom]
      rcases h1 : (env attempt).1 with ⟨s, r⟩ | _ | _ | _ <;>
        rcases h2 : (env attempt).2 with ⟨s2, r2⟩ | _ | _ | _ <;>
          (repeat' split) <;> first | rfl | omega

/-- C7: under the precondition that the retry count is nonnegative, the
attempt loop always hits a `return`: its result is `some` outcome, and
`check_one_url` returns that outcome, so the defensive fallback value
(absent status, reason "Unknown error") placed after the loop is
unreachable. -/
theorem C7_defensive_fallback_unreachable (env : ProbeEnv) (retries : Int)
    (hr : 0 ≤ retries) :
    ∃ o, (checkFrom env retries 0 (1 + retries).toNat).1 = some o ∧
      (check_one_url env retries).1 = o := by
  have h := checkFrom_isSome env retries (1 + retries).toNat 0 (by omega) (by omega)
  rcases Option.isSome_iff_exists.mp h with ⟨o, ho⟩
  exact ⟨o, ho, by rw [check_one_url, ho]; rfl⟩

/-- C7 witness: with the default retry count and a first attempt that
answers 200 on the HEAD probe, the loop returns a terminal outcome. -/
theorem C7_witness :
    ∃ o, (checkFrom (fun _ => (.response 200 none, .timeoutError)) RETRY_COUNT 0
            (1 + RETRY_COUNT).toNat).1 = some o ∧
      (check_one_url (fun _ => (.response 200 none, .timeoutError)) RETRY_COUNT).1 = o :=
  C7_defensive_fallback_unreachable (fun _ => (.response 200 none, .timeoutError))
    RETRY_COUNT (by decide)

/-- The transient failure reasons of the error taxonomy: one tag per
except clause of the fallback probe. -/
def TransientReason (s : String) : Prop :=
  s = "Timeout" ∨ s = "Connection failed" ∨
    (∃ m, s = "Client error: " ++ m) ∨ (∃ m, s = "OS error: " ++ m)

set_option maxHeartbeats 2000000 in
/-- Helper: any outcome produced by the attempt loop with absent status
carries one of the transient-failure reason tags. -/
lemma checkFrom_absent_status_transient (env : ProbeEnv) (retries : Int) :
    ∀ (fuel attempt : Nat) (o : Outcome),
      (checkFrom env retries attempt fuel).1 = some o → o.status = none →
        TransientReason o.reason := by
  intro fuel
  induction fuel with
  | zero => intro attempt o ho hst; simp [checkFrom] at ho
  | succ k ih =>
    intro attempt o ho hst
    simp only [checkFrom] at ho
    rcases h1 : (env attempt).1 with ⟨s, r⟩ | _ | _ | _ <;> rw [h1] at ho <;>
      rcases h2 : (env attempt).2 with ⟨s2, r2⟩ | _ | _ | _ <;> rw [h2] at ho <;>
        (repeat' split at ho) <;>
          first
            | exact ih _ _ ho hst
            | (obtain rfl := Option.some.inj ho
               first
                 | exact Or.inl rfl
                 | exact Or.inr (Or.inl rfl)
                 | exact Or.inr (Or.inr (Or.inl ⟨_, rfl⟩))
                 | exact Or.inr (Or.inr (Or.inr ⟨_, rfl⟩))
                 | simp at hst)

/-- C6: for every environment of network behaviours and every retry
count, `check_one_url` returns exactly one Outcome (it is a total
function and the returned pair is unique), and every failure mode is
captured as an Outcome value: whenever the status is absent the reason
is one of the transient-failure tags or the defensive fallback tag, so
no failure escapes as an exception. -/
theorem C6_exactly_one_outcome (env : ProbeEnv) (retries : Int) :
    ∃ o t, check_one_url env retries = (o, t) ∧
      (∀ o2 t2, check_one_url env retries = (o2, t2) → o2 = o ∧ t2 = t) ∧
      (o.status = none → TransientReason o.reason ∨ o.reason = "Unknown error") := by
  refine ⟨(check_one_url env retries).1, (check_one_url env retries).2, rfl, ?_, ?_⟩
  · intro o2 t2 h
    simp [h]
  · intro hst
    rcases hres : (checkFrom env retries 0 (1 + retries).toNat).1 with _ | o0
    · right
      simp [check_one_url, hres]
    · left
      have hfst : (check_one_url env retries).1 = o0 := by
        simp [check_one_url, hres]
      rw [hfst]
      rw [hfst] at hst
      exact checkFrom_absent_status_transient env retries ((1 + retries).toNat) 0 o0 hres hst

/-- C6 witness: a concrete environment whose first attempt fails with a
connection error on both probes; `check_one_url` still returns a single
classified Outcome. -/
theorem C6_witness :
    ∃ o t, check_one_url (fun _ => (.clientError, .connectorError)) RETRY_COUNT = (o, t) ∧
      (∀ o2 t2, check_one_url (fun _ => (.clientError, .connectorError)) RETRY_COUNT = (o2, t2)
          → o2 = o ∧ t2 = t) ∧
      (o.status = none → TransientReason o.reason ∨ o.reason = "Unknown error") :=
  C6_exactly_one_outcome (fun _ => (.clientError, .connectorError)) RETRY_COUNT

/-- Python `url.startswith(pre)`. -/
def startswith (s pre : String) : Bool := pre.data.isPrefixOf s.data

/-- `is_external`: True if the URL points to an external site
(`http://` or `https://` literal prefix). -/
def is_external (url : String) : Bool :=
  startswith url "http://" || startswith url "https://"

/-- One step of `link_map.setdefault(url, set()).add(fname)` on the
insertion-ordered association list modelling the Python dict; a page set
is modelled as its insertion-ordered duplicate-free list. -/
def addRef (m : List (String × List String)) (url page : String) :
    List (String × List String) :=
  match m with
  | [] => [(url, [page])]
  | (u, ps) :: rest =>
    if u = url then (u, if page ∈ ps then ps else ps ++ [page]) :: rest
    else (u, ps) :: addRef rest url page

/-- The aggregation loop of `main`: for each document, filter its raw
references through `is_external` and add the document to each surviving
locator entry of the link map. -/
def buildLinkMap (docs : List (String × List String)) : List (String × List String) :=
  docs.foldl (fun m doc =>
    (doc.2.filter (fun u => is_external u)).foldl (fun acc url => addRef acc url doc.1) m) []

/-- One row appended to `results` by `check_all_links`: the dict
`{"page": ..., "url": ..., "status": ..., "reason": ...}` (the status
keeps the absent marker; the reporter renders it as "N/A"). -/
structure FailureRecord where
  page : String
  url : String
  status : Option Nat
  reason : String
deriving Repr, DecidableEq

/-- The failure test of the coordinator: `status is None or status >= 400`. -/
def isFailure (status : Option Nat) : Bool :=
  match status with
  | none => true
  | some s => decide (400 ≤ s)

/-- Strict lexicographic comparison of two character lists by code
point: the order Python uses to compare strings. -/
def charListLt : List Char → List Char → Bool
  | _, [] => false
  | [], _ :: _ => true
  | a :: as, b :: bs =>
    if a < b then true
    else if b < a then false
    else charListLt as bs

/-- Python `a < b` on strings. -/
def strLt (a b : String) : Bool := charListLt a.data b.data

/-- Python `sorted(link_map[url])` on the page set: ascending in the
string order (strictly less or equal). -/
def sortPages (ps : List String) : List String :=
  ps.insertionSort (fun a b => strLt a b = true ∨ a = b)

/-- `check_all_links`: awaiting one probe task per unique URL in map
order, fanning each failing outcome out to one row per referencing page
(in sorted page order).  The per-URL outcomes are abstracted as a
function from URL to Outcome, the first component of `check_one_url`. -/
def check_all_links (m : List (String × List String)) (O : String → Outcome) :
    List FailureRecord :=
  m.foldl (fun results e =>
    let o := O e.1
    if isFailure o.status then
      results ++ (sortPages e.2).map (fun p => ⟨p, e.1, o.status, o.reason⟩)
    else results) []

/-- The URLs for which `check_all_links` creates a probe task: the keys
of the link map (`tasks = {url: ... for url in urls}` with
`urls = list(link_map.keys())`). -/
def probedUrls (m : List (String × List String)) : List String := m.map (fun e => e.1)

/-- The sort key comparison of `results.sort(key=lambda r: (r["page"], r["url"]))`:
lexicographic (less or equal) order on the (page, url) pair. -/
def recordLE (a b : FailureRecord) : Prop :=
  strLt a.page b.page = true ∨
    (a.page = b.page ∧ (strLt a.url b.url = true ∨ a.url = b.url))

/-- Strict comparison on the (page, url) sort key. -/
def recordLT (a b : FailureRecord) : Prop :=
  strLt a.page b.page = true ∨ (a.page = b.page ∧ strLt a.url b.url = true)

instance : DecidableRel recordLE := fun a b => by
  unfold recordLE; infer_instance

/-- `results.sort(key=lambda r: (r["page"], r["url"]))` of `main`. -/
def sortRecords (rs : List FailureRecord) : List FailureRecord :=
  rs.insertionSort recordLE

/-- The failure rows of a full run of `main`, in the order handed to
the CSV writer and the console reporter. -/
def mainResults (docs : List (String × List String)) (O : String → Outcome) :
    List FailureRecord :=
  sortRecords (check_all_links (buildLinkMap docs) O)

/-- The exit code of `main`: `return 0 if not results else 1`. -/
def mainExit (docs : List (String × List String)) (O : String → Outcome) : Nat :=
  if mainResults docs O = [] then 0 else 1

/-- `broken_urls = {r["url"] for r in results}` as a duplicate-free list. -/
def brokenUrls (rs : List FailureRecord) : List String :=
  (rs.map (fun rec => rec.url)).dedup

example : sortPages ["b.html", "a.html"] = ["a.html", "b.html"] := by decide

example : is_external "HTTP://example.com" = false := by decide

example :
    buildLinkMap
      [("a.html", ["http://good.example"]),
       ("b.html", ["http://good.example", "http://bad.example"])]
      = [("http://good.example", ["a.html", "b.html"]), ("http://bad.example", ["b.html"])] := by
  decide

lemma charListLt_trans : ∀ as bs cs, charListLt as bs = true → charListLt bs cs = true →
    charListLt as cs = true := by
  intro as
  induction as with
  | nil =>
    intro bs cs h1 h2
    cases bs with
    | nil => simp [charListLt] at h1
    | cons b bs =>
      cases cs with
      | nil => simp [charListLt] at h2
      | cons c cs => simp [charListLt]
  | cons a as ih =>
    intro bs cs h1 h2
    cases bs with
    | nil => simp [charListLt] at h1
    | cons b bs =>
      cases cs with
      | nil => simp [charListLt] at h2
      | cons c cs =>
        rcases lt_trichotomy a b with hab | hab | hab
        · rcases lt_trichotomy b c with hbc | hbc | hbc
          · simp [charListLt, lt_trans hab hbc]
          · subst hbc; simp [charListLt, hab]
          · simp [charListLt, lt_asymm hbc, hbc] at h2
        · subst hab
          rcases lt_trichotomy a c with hac | hac | hac
          · simp [charListLt, hac]
          · subst hac
            simp only [charListLt, lt_irrefl, if_false] at h1 h2 ⊢
            exact ih bs cs h1 h2
          · simp [charListLt, lt_asymm hac, hac] at h2
        · simp [charListLt, lt_asymm hab, hab] at h1

lemma charListLt_irrefl : ∀ as, charListLt as as = false := by
  intro as
  induction as with
  | nil => rfl
  | cons a as ih => simp [charListLt, lt_irrefl, ih]

lemma charListLt_asymm : ∀ as bs, charListLt as bs = true → charListLt bs as = false := by
  intro as
  induction as with
  | nil =>
    intro bs h
    cases bs with
    | nil => simp [charListLt] at h
    | cons b bs => simp [charListLt]
  | cons a as ih =>
    intro bs h
    cases bs with
    | nil => simp [charListLt] at h
    | cons b bs =>
      rcases lt_trichotomy a b with hab | hab | hab
      · simp [charListLt, lt_asymm hab, hab]
      · subst hab
        simp only [charListLt, lt_irrefl, if_false] at h ⊢
        exact ih bs h
      · simp [charListLt, lt_asymm hab, hab] at h

lemma charListLt_tri : ∀ as bs, charListLt as bs = true ∨ as = bs ∨ charListLt bs as = true := by
  intro as
  induction as with
  | nil =>
    intro bs
    cases bs with
    | nil => right; left; rfl
    | cons b bs => left; simp [charListLt]
  | cons a as ih =>
    intro bs
    cases bs with
    | nil => right; right; simp [charListLt]
    | cons b bs =>
      rcases lt_trichotomy a b with hab | hab | hab
      · left; simp [charListLt, hab]
      · subst hab
        rcases ih bs with h | h | h
        · left; simp [charListLt, lt_irrefl, h]
        · right; left; rw [h]
        · right; right; simp [charListLt, lt_irrefl, h]
      · right; right; simp [charListLt, hab]

lemma strLt_trans {a b c : String} (h1 : strLt a b = true) (h2 : strLt b c = true) :
    strLt a c = true := charListLt_trans _ _ _ h1 h2

lemma strLt_irrefl (a : String) : strLt a a = false := charListLt_irrefl _

lemma strLt_asymm {a b : String} (h : strLt a b = true) : strLt b a = false :=
  charListLt_asymm _ _ h

lemma strLt_tri (a b : String) : strLt a b = true ∨ a = b ∨ strLt b a = true := by
  rcases charListLt_tri a.data b.data with h | h | h
  · left; exact h
  · right; left
    cases a; cases b
    exact congrArg String.mk h
  · right; right; exact h

instance : IsTotal FailureRecord recordLE := ⟨by
  intro a b
  rcases strLt_tri a.page b.page with h | h | h
  · exact Or.inl (Or.inl h)
  · rcases strLt_tri a.url b.url with h2 | h2 | h2
    · exact Or.inl (Or.inr ⟨h, Or.inl h2⟩)
    · exact Or.inl (Or.inr ⟨h, Or.inr h2⟩)
    · exact Or.inr (Or.inr ⟨h.symm, Or.inl h2⟩)
  · exact Or.inr (Or.inl h)⟩

instance : IsTrans FailureRecord recordLE := ⟨by
  intro a b c hab hbc
  rcases hab with h | ⟨he, hu⟩
  · rcases hbc with h2 | ⟨he2, hu2⟩
    · exact Or.inl (strLt_trans h h2)
    · exact Or.inl (he2 ▸ h)
  · rcases hbc with h2 | ⟨he2, hu2⟩
    · exact Or.inl (by rw [he]; exact h2)
    · refine Or.inr ⟨he.trans he2, ?_⟩
      rcases hu with hu | hu <;> rcases hu2 with hu2 | hu2
      · exact Or.inl (strLt_trans hu hu2)
      · exact Or.inl (hu2 ▸ hu)
      · exact Or.inl (by rw [hu]; exact hu2)
      · exact Or.inr (hu.trans hu2)⟩

instance : IsAntisymm FailureRecord recordLT := ⟨by
  intro a b hab hba
  exfalso
  rcases hab with h | ⟨he, hu⟩ <;> rcases hba with h2 | ⟨he2, hu2⟩
  · rw [strLt_asymm h] at h2; simp at h2
  · rw [he2] at h; rw [strLt_irrefl] at h; simp at h
  · rw [← he] at h2; rw [strLt_irrefl] at h2; simp at h2
  · rw [strLt_asymm hu] at hu2; simp at hu2⟩

/-- Two records differ in their (page, url) sort key. -/
def keyNe (a b : FailureRecord) : Prop := ¬ (a.page = b.page ∧ a.url = b.url)

lemma recordLT_of_recordLE_keyNe {a b : FailureRecord} (h : recordLE a b) (hne : keyNe a b) :
    recordLT a b := by
  rcases h with h | ⟨he, hu⟩
  · exact Or.inl h
  · rcases hu with hu | hu
    · exact Or.inr ⟨he, hu⟩
    · exact absurd ⟨he, hu⟩ hne

/-- The rows contributed by one link-map entry in `check_all_links`:
empty when the outcome is not a failure, otherwise one row per
referencing page in sorted page order. -/
def perEntry (O : String → Outcome) (e : String × List String) : List FailureRecord :=
  if isFailure (O e.1).status then
    (sortPages e.2).map (fun p => ⟨p, e.1, (O e.1).status, (O e.1).reason⟩)
  else []

lemma check_all_links_eq_flatten (m : List (String × List String)) (O : String → Outcome) :
    check_all_links m O = (m.map (perEntry O)).flatten := by
  suffices h : ∀ (mm : List (String × List String)) (acc : List FailureRecord),
      mm.foldl (fun results e =>
        let o := O e.1
        if isFailure o.status then
          results ++ (sortPages e.2).map (fun p => ⟨p, e.1, o.status, o.reason⟩)
        else results) acc = acc ++ (mm.map (perEntry O)).flatten by
    simpa [check_all_links] using h m []
  intro mm
  induction mm with
  | nil => intro acc; simp
  | cons e mm ih =>
    intro acc
    simp only [List.foldl_cons, List.map_cons, List.flatten_cons]
    by_cases hf : isFailure (O e.1).status = true
    · rw [ih]
      simp [perEntry, hf, List.append_assoc]
    · rw [ih]
      simp [perEntry, hf]

lemma check_all_links_cons (e : String × List String) (m : List (String × List String))
    (O : String → Outcome) :
    check_all_links (e :: m) O = perEntry O e ++ check_all_links m O := by
  rw [check_all_links_eq_flatten, check_all_links_eq_flatten]
  simp

lemma mem_sortPages {p : String} {ps : List String} : p ∈ sortPages ps ↔ p ∈ ps :=
  (List.perm_insertionSort _ ps).mem_iff

lemma length_sortPages (ps : List String) : (sortPages ps).length = ps.length :=
  (List.perm_insertionSort _ ps).length_eq

lemma nodup_sortPages {ps : List String} (h : ps.Nodup) : (sortPages ps).Nodup :=
  ((List.perm_insertionSort _ ps).nodup_iff).mpr h

lemma mem_perEntry {O : String → Outcome} {e : String × List String} {rec : FailureRecord} :
    rec ∈ perEntry O e ↔
      isFailure (O e.1).status = true ∧ rec.url = e.1 ∧ rec.page ∈ e.2 ∧
        rec.status = (O e.1).status ∧ rec.reason = (O e.1).reason := by
  obtain ⟨rpage, rurl, rstatus, rreason⟩ := rec
  unfold perEntry
  by_cases hf : isFailure (O e.1).status = true
  · simp only [hf, if_true, List.mem_map, FailureRecord.mk.injEq, true_and]
    constructor
    · rintro ⟨p, hp, rfl, h2, h3, h4⟩
      exact ⟨h2.symm, mem_sortPages.mp hp, h3.symm, h4.symm⟩
    · rintro ⟨h1, h2, h3, h4⟩
      exact ⟨rpage, mem_sortPages.mpr h2, rfl, h1.symm, h3.symm, h4.symm⟩
  · simp [hf]

lemma mem_check_all_links {m : List (String × List String)} {O : String → Outcome}
    {rec : FailureRecord} :
    rec ∈ check_all_links m O ↔
      ∃ pages, (rec.url, pages) ∈ m ∧ rec.page ∈ pages ∧
        isFailure (O rec.url).status = true ∧ rec.status = (O rec.url).status ∧
        rec.reason = (O rec.url).reason := by
  rw [check_all_links_eq_flatten]
  simp only [List.mem_flatten, List.mem_map]
  constructor
  · rintro ⟨l, ⟨e, he, rfl⟩, hrec⟩
    rw [mem_perEntry] at hrec
    obtain ⟨hf, hu, hp, hs, hr⟩ := hrec
    rw [hu]
    exact ⟨e.2, he, hp, hf, hs, hr⟩
  · rintro ⟨pages, hm, hp, hf, hs, hr⟩
    exact ⟨perEntry O (rec.url, pages), ⟨(rec.url, pages), hm, rfl⟩,
      mem_perEntry.mpr ⟨hf, rfl, hp, hs, hr⟩⟩

/-- Invariants of every entry of the link map: the page set is
duplicate-free and nonempty, and the key passed the external filter. -/
def EntriesWF (m : List (String × List String)) : Prop :=
  ∀ e ∈ m, e.2.Nodup ∧ e.2 ≠ [] ∧ is_external e.1 = true

lemma probedUrls_addRef_mem {m : List (String × List String)} {url : String} (page : String)
    (h : url ∈ probedUrls m) : probedUrls (addRef m url page) = probedUrls m := by
  induction m with
  | nil => simp [probedUrls] at h
  | cons e m ih =>
    obtain ⟨u, ps⟩ := e
    by_cases hq : u = url
    · subst hq
      simp [addRef, probedUrls]
    · have h2 : url ∈ probedUrls m := by
        simp only [probedUrls, List.map_cons, List.mem_cons] at h
        rcases h with h | h
        · exact absurd h.symm hq
        · exact h
      simp only [addRef, if_neg hq, probedUrls, List.map_cons]
      rw [show List.map (fun e => e.1) (addRef m url page) = probedUrls (addRef m url page) from rfl,
        ih h2]
      rfl

lemma probedUrls_addRef_notMem {m : List (String × List String)} {url : String} (page : String)
    (h : url ∉ probedUrls m) : probedUrls (addRef m url page) = probedUrls m ++ [url] := by
  induction m with
  | nil => simp [addRef, probedUrls]
  | cons e m ih =>
    obtain ⟨u, ps⟩ := e
    have hq : u ≠ url := by
      intro hq
      exact h (by simp [probedUrls, hq])
    have h2 : url ∉ probedUrls m := fun h2 => h (by simp [probedUrls] at h2 ⊢; exact Or.inr h2)
    simp only [addRef, if_neg hq, probedUrls, List.map_cons]
    rw [show List.map (fun e => e.1) (addRef m url page) = probedUrls (addRef m url page) from rfl,
      ih h2]
    rfl

lemma mem_probedUrls_addRef {m : List (String × List String)} {url v : String} (page : String) :
    v ∈ probedUrls (addRef m url page) ↔ v ∈ probedUrls m ∨ v = url := by
  by_cases h : url ∈ probedUrls m
  · rw [probedUrls_addRef_mem page h]
    constructor
    · exact Or.inl
    · rintro (hv | rfl)
      · exact hv
      · exact h
  · rw [probedUrls_addRef_notMem page h]
    simp

lemma nodup_probedUrls_addRef {m : List (String × List String)} {url : String} (page : String)
    (h : (probedUrls m).Nodup) : (probedUrls (addRef m url page)).Nodup := by
  by_cases hm : url ∈ probedUrls m
  · rw [probedUrls_addRef_mem page hm]; exact h
  · rw [probedUrls_addRef_notMem page hm]
    simp [List.nodup_append, h, hm]

lemma entriesWF_addRef {url : String} (page : String) (hu : is_external url = true) :
    ∀ m, EntriesWF m → EntriesWF (addRef m url page) := by
  intro m
  induction m with
  | nil =>
    intro _ e he
    simp only [addRef, List.mem_singleton] at he
    subst he
    exact ⟨List.nodup_singleton page, by simp, hu⟩
  | cons e0 m ih =>
    obtain ⟨u, ps⟩ := e0
    intro h e he
    by_cases hq : u = url
    · subst hq
      simp only [addRef, if_true, List.mem_cons] at he
      rcases he with he | he
      · subst he
        obtain ⟨hnd, hne, hext⟩ := h (u, ps) (List.mem_cons_self _ _)
        refine ⟨?_, ?_, hext⟩
        · by_cases hp : page ∈ ps
          · simpa [hp] using hnd
          · simp only [hp, if_false]
            simp [List.nodup_append, hnd, hp]
        · by_cases hp : page ∈ ps <;> simp_all
      · exact h e (List.mem_cons_of_mem _ he)
    · simp only [addRef, if_neg hq, List.mem_cons] at he
      rcases he with he | he
      · subst he
        exact h (u, ps) (List.mem_cons_self _ _)
      · exact ih (fun x hx => h x (List.mem_cons_of_mem _ hx)) e he

lemma nodup_probedUrls_foldlAdd (page : String) :
    ∀ (urls : List String) (m), (probedUrls m).Nodup →
      (probedUrls (urls.foldl (fun acc url => addRef acc url page) m)).Nodup := by
  intro urls
  induction urls with
  | nil => intro m h; exact h
  | cons u urls ih =>
    intro m h
    simp only [List.foldl_cons]
    exact ih _ (nodup_probedUrls_addRef page h)

lemma entriesWF_foldlAdd (page : String) :
    ∀ (urls : List String) (m), EntriesWF m → (∀ u ∈ urls, is_external u = true) →
      EntriesWF (urls.foldl (fun acc url => addRef acc url page) m) := by
  intro urls
  induction urls with
  | nil => intro m h _; exact h
  | cons u urls ih =>
    intro m h hext
    simp only [List.foldl_cons]
    exact ih _ (entriesWF_addRef page (hext u (List.mem_cons_self _ _)) m h)
      (fun v hv => hext v (List.mem_cons_of_mem _ hv))

lemma mem_probedUrls_foldlAdd (page : String) :
    ∀ (urls : List String) (m) (v : String),
      v ∈ probedUrls (urls.foldl (fun acc url => addRef acc url page) m) ↔
        v ∈ probedUrls m ∨ v ∈ urls := by
  intro urls
  induction urls with
  | nil => intro m v; simp
  | cons u urls ih =>
    intro m v
    simp only [List.foldl_cons]
    rw [ih, mem_probedUrls_addRef page]
    simp only [List.mem_cons]
    tauto

/-- The body of the aggregation loop of `main` for one document. -/
def buildStep (m : List (String × List String)) (doc : String × List String) :
    List (String × List String) :=
  (doc.2.filter (fun u => is_external u)).foldl (fun acc url => addRef acc url doc.1) m

lemma buildLinkMap_eq_foldl (docs : List (String × List String)) :
    buildLinkMap docs = docs.foldl buildStep [] := rfl

lemma nodup_probedUrls_buildFold :
    ∀ (docs : List (String × List String)) (m), (probedUrls m).Nodup →
      (probedUrls (docs.foldl buildStep m)).Nodup := by
  intro docs
  induction docs with
  | nil => intro m h; exact h
  | cons d docs ih =>
    intro m h
    simp only [List.foldl_cons]
    exact ih _ (nodup_probedUrls_foldlAdd _ _ _ h)

lemma entriesWF_buildFold :
    ∀ (docs : List (String × List String)) (m), EntriesWF m →
      EntriesWF (docs.foldl buildStep m) := by
  intro docs
  induction docs with
  | nil => intro m h; exact h
  | cons d docs ih =>
    intro m h
    simp only [List.foldl_cons]
    exact ih _ (entriesWF_foldlAdd _ _ _ h (fun u hu => (List.mem_filter.mp hu).2))

lemma mem_probedUrls_buildFold :
    ∀ (docs : List (String × List String)) (m) (v : String),
      v ∈ probedUrls (docs.foldl buildStep m) ↔
        v ∈ probedUrls m ∨ ∃ d ∈ docs, v ∈ d.2 ∧ is_external v = true := by
  intro docs
  induction docs with
  | nil => intro m v; simp
  | cons d docs ih =>
    intro m v
    simp only [List.foldl_cons]
    rw [ih]
    rw [show (buildStep m d : List (String × List String))
        = (d.2.filter (fun u => is_external u)).foldl (fun acc url => addRef acc url d.1) m
      from rfl] at *
    rw [mem_probedUrls_foldlAdd]
    simp only [List.mem_filter, List.mem_cons]
    constructor
    · rintro ((h | h) | ⟨e, he, hv⟩)
      · exact Or.inl h
      · exact Or.inr ⟨d, Or.inl rfl, h⟩
      · exact Or.inr ⟨e, Or.inr he, hv⟩
    · rintro (h | ⟨e, (rfl | he), hv⟩)
      · exact Or.inl (Or.inl h)
      · exact Or.inl (Or.inr hv)
      · exact Or.inr ⟨e, he, hv⟩

lemma nodup_probedUrls_buildLinkMap (docs : List (String × List String)) :
    (probedUrls (buildLinkMap docs)).Nodup := by
  rw [buildLinkMap_eq_foldl]
  exact nodup_probedUrls_buildFold docs [] (by simp [probedUrls])

lemma entriesWF_buildLinkMap (docs : List (String × List String)) :
    EntriesWF (buildLinkMap docs) := by
  rw [buildLinkMap_eq_foldl]
  exact entriesWF_buildFold docs [] (by intro e he; simp at he)

lemma mem_probedUrls_buildLinkMap {docs : List (String × List String)} {v : String} :
    v ∈ probedUrls (buildLinkMap docs) ↔ ∃ d ∈ docs, v ∈ d.2 ∧ is_external v = true := by
  rw [buildLinkMap_eq_foldl, mem_probedUrls_buildFold]
  simp [probedUrls]

/-- C10: the external-reference filter accepts exactly the strings whose
character data begins with the literal lowercase prefix "http://" or
"https://"; a mixed-case scheme such as "HTTP://example.com" is rejected,
and any reference rejected by the filter never appears among the probed
targets (the keys of the link map). -/
theorem C10_external_filter (u : String) (docs : List (String × List String)) :
    (is_external u = true ↔
      ("http://".data.isPrefixOf u.data = true ∨ "https://".data.isPrefixOf u.data = true)) ∧
    is_external "HTTP://example.com" = false ∧
    (is_external u = false → u ∉ probedUrls (buildLinkMap docs)) := by
  refine ⟨?_, by decide, ?_⟩
  · simp [is_external, startswith, Bool.or_eq_true]
  · intro hf hmem
    rw [mem_probedUrls_buildLinkMap] at hmem
    obtain ⟨d, hd, hv, hext⟩ := hmem
    rw [hf] at hext
    exact Bool.noConfusion hext

/-- C10 witness: "HTTP://example.com" is rejected by the filter, and a
document referencing only that string yields a link map that never
probes it. -/
theorem C10_witness :
    is_external "HTTP://example.com" = false ∧
    "HTTP://example.com" ∉
      probedUrls (buildLinkMap [("a.html", ["HTTP://example.com"])]) := by
  have h := C10_external_filter "HTTP://example.com" [("a.html", ["HTTP://example.com"])]
  exact ⟨h.2.1, h.2.2 h.2.1⟩

/-- C9: the exit code of `main` is the success indicator 0 exactly when
the list of failure records is empty, and the failure indicator 1
exactly when it is not. -/
theorem C9_exit_code (docs : List (String × List String)) (O : String → Outcome) :
    (mainExit docs O = 0 ↔ check_all_links (buildLinkMap docs) O = []) ∧
    (mainExit docs O = 1 ↔ check_all_links (buildLinkMap docs) O ≠ []) := by
  have hperm : List.Perm (mainResults docs O) (check_all_links (buildLinkMap docs) O) :=
    List.perm_insertionSort _ _
  have hempty : mainResults docs O = [] ↔ check_all_links (buildLinkMap docs) O = [] := by
    constructor
    · intro h
      rw [h] at hperm
      exact hperm.symm.eq_nil
    · intro h
      rw [mainResults, h]
      rfl
  have h1 : mainExit docs O = if mainResults docs O = [] then 0 else 1 := rfl
  by_cases hm : mainResults docs O = []
  · rw [h1, if_pos hm]
    simp [hempty.mp hm]
  · rw [h1, if_neg hm]
    have hl : check_all_links (buildLinkMap docs) O ≠ [] := fun h => hm (hempty.mpr h)
    simp [hl]

/-- C9 witness: the end-to-end scenario of the specification — a run
with one broken target referenced by one page exits with the failure
indicator. -/
theorem C9_witness :
    mainExit
      [("a.html", ["http://good.example"]),
       ("b.html", ["http://good.example", "http://bad.example"])]
      (fun u => if u = "http://bad.example" then ⟨some 500, "Error"⟩ else ⟨some 200, "OK"⟩)
      = 1 := by
  have h := C9_exit_code
    [("a.html", ["http://good.example"]),
     ("b.html", ["http://good.example", "http://bad.example"])]
    (fun u => if u = "http://bad.example" then ⟨some 500, "Error"⟩ else ⟨some 200, "OK"⟩)
  exact h.2.mpr (by decide)

lemma url_mem_of_mem_check {m : List (String × List String)} {O : String → Outcome}
    {rec : FailureRecord} (h : rec ∈ check_all_links m O) : rec.url ∈ probedUrls m := by
  rw [mem_check_all_links] at h
  obtain ⟨pages, hm, _⟩ := h
  exact List.mem_map.mpr ⟨(rec.url, pages), hm, rfl⟩

lemma countP_check_all_links (O : String → Outcome) :
    ∀ (m : List (String × List String)), (probedUrls m).Nodup → EntriesWF m →
      ∀ (u p : String) (pages : List String), (u, pages) ∈ m → p ∈ pages →
        isFailure (O u).status = true →
        (check_all_links m O).countP (fun rec => decide (rec.page = p ∧ rec.url = u)) = 1 := by
  intro m
  induction m with
  | nil => intro _ _ u p pages hm; simp at hm
  | cons e m ih =>
    intro hnd hwf u p pages hm hp hf
    rw [check_all_links_cons, List.countP_append]
    have hndm : (probedUrls m).Nodup := by
      simp only [probedUrls, List.map_cons, List.nodup_cons] at hnd
      exact hnd.2
    have hheadnot : e.1 ∉ probedUrls m := by
      simp only [probedUrls, List.map_cons, List.nodup_cons] at hnd
      exact hnd.1
    have hwfm : EntriesWF m := fun x hx => hwf x (List.mem_cons_of_mem _ hx)
    rcases List.mem_cons.mp hm with he | he
    · have heu : e.1 = u := by rw [← he]
      have htail : (check_all_links m O).countP
          (fun rec => decide (rec.page = p ∧ rec.url = u)) = 0 := by
        rw [List.countP_eq_zero]
        intro rec hrec
        simp only [decide_eq_true_eq]
        rintro ⟨_, hru⟩
        exact hheadnot (heu ▸ hru ▸ url_mem_of_mem_check hrec)
      have hhead : (perEntry O e).countP
          (fun rec => decide (rec.page = p ∧ rec.url = u)) = 1 := by
        unfold perEntry
        rw [if_pos (show isFailure (O e.1).status = true from by rw [heu]; exact hf)]
        rw [List.countP_map]
        have hpred : ∀ q ∈ sortPages e.2,
            (((fun rec => decide (rec.page = p ∧ rec.url = u)) ∘
              (fun q => (⟨q, e.1, (O e.1).status, (O e.1).reason⟩ : FailureRecord))) q = true
              ↔ (q == p) = true) := by
          intro q _
          simp [Function.comp, heu]
        rw [List.countP_congr hpred]
        have hpages : e.2 = pages := by rw [← he]
        have hnodup2 : (sortPages e.2).Nodup :=
          nodup_sortPages (hwf e (List.mem_cons_self _ _)).1
        have hmem2 : p ∈ sortPages e.2 := mem_sortPages.mpr (hpages ▸ hp)
        exact List.count_eq_one_of_mem hnodup2 hmem2
      rw [htail, hhead]
    · have hne : e.1 ≠ u := by
        intro hq
        exact hheadnot (hq ▸ List.mem_map.mpr ⟨(u, pages), he, rfl⟩)
      have hhead : (perEntry O e).countP
          (fun rec => decide (rec.page = p ∧ rec.url = u)) = 0 := by
        rw [List.countP_eq_zero]
        intro rec hrec
        have hu := (mem_perEntry.mp hrec).2.1
        simp only [decide_eq_true_eq]
        rintro ⟨_, hru⟩
        exact hne (by rw [← hu, hru])
      rw [hhead, ih hndm hwfm u p pages he hp hf]

/-- C4: the coordinator creates exactly one probe task per unique
target (the keys of the link map are duplicate-free, and any target
referenced by some document appears exactly once among the probed
URLs), a record is in the result list exactly when its target is
referenced by its page and the single Outcome of that target is a
failure (absent status or status at least 400), and for each failing
target and each referencing document exactly one record is produced. -/
theorem C4_dedup_and_fanout (docs : List (String × List String)) (O : String → Outcome) :
    ((probedUrls (buildLinkMap docs)).Nodup ∧
      (∀ u, (∃ d ∈ docs, u ∈ d.2 ∧ is_external u = true) →
        (probedUrls (buildLinkMap docs)).count u = 1)) ∧
    (∀ rec, rec ∈ check_all_links (buildLinkMap docs) O ↔
      ∃ pages, (rec.url, pages) ∈ buildLinkMap docs ∧ rec.page ∈ pages ∧
        isFailure (O rec.url).status = true ∧ rec.status = (O rec.url).status ∧
        rec.reason = (O rec.url).reason) ∧
    (∀ u pages p, (u, pages) ∈ buildLinkMap docs → p ∈ pages →
      isFailure (O u).status = true →
      (check_all_links (buildLinkMap docs) O).countP
        (fun rec => decide (rec.page = p ∧ rec.url = u)) = 1) := by
  refine ⟨⟨nodup_probedUrls_buildLinkMap docs, ?_⟩, fun rec => mem_check_all_links, ?_⟩
  · intro u hu
    exact List.count_eq_one_of_mem (nodup_probedUrls_buildLinkMap docs)
      (mem_probedUrls_buildLinkMap.mpr hu)
  · intro u pages p hm hp hf
    exact countP_check_all_links O _ (nodup_probedUrls_buildLinkMap docs)
      (entriesWF_buildLinkMap docs) u p pages hm hp hf

/-- C4 witness: in the end-to-end scenario of the specification the
shared good target is probed once even though two pages reference it,
and the failing target referenced by one page yields exactly one
record for that page. -/
theorem C4_witness :
    (probedUrls (buildLinkMap
        [("a.html", ["http://good.example"]),
         ("b.html", ["http://good.example", "http://bad.example"])])).count
      "http://good.example" = 1 ∧
    (check_all_links
        (buildLinkMap
          [("a.html", ["http://good.example"]),
           ("b.html", ["http://good.example", "http://bad.example"])])
        (fun u => if u = "http://bad.example" then ⟨some 500, "Error"⟩ else ⟨some 200, "OK"⟩)).countP
      (fun rec => decide (rec.page = "b.html" ∧ rec.url = "http://bad.example")) = 1 := by
  have h := C4_dedup_and_fanout
    [("a.html", ["http://good.example"]),
     ("b.html", ["http://good.example", "http://bad.example"])]
    (fun u => if u = "http://bad.example" then ⟨some 500, "Error"⟩ else ⟨some 200, "OK"⟩)
  refine ⟨h.1.2 "http://good.example" ?_,
    h.2.2 "http://bad.example" ["b.html"] "b.html" ?_ ?_ ?_⟩
  · decide
  · decide
  · decide
  · decide

lemma pairwise_keyNe_check_all_links (O : String → Outcome)
    (m : List (String × List String)) (hnd : (probedUrls m).Nodup) (hwf : EntriesWF m) :
    (check_all_links m O).Pairwise keyNe := by
  rw [check_all_links_eq_flatten, List.pairwise_flatten]
  constructor
  · intro l hl
    obtain ⟨e, he, rfl⟩ := List.mem_map.mp hl
    unfold perEntry
    by_cases hf : isFailure (O e.1).status = true
    · rw [if_pos hf]
      have hnd2 : (sortPages e.2).Nodup := nodup_sortPages (hwf e he).1
      exact List.Pairwise.map _ (fun a b hab hk => hab hk.1) hnd2
    · rw [if_neg hf]
      exact List.Pairwise.nil
  · have hpw : List.Pairwise (fun e1 e2 : String × List String => e1.1 ≠ e2.1) m :=
      List.pairwise_map.mp hnd
    rw [List.pairwise_map]
    refine hpw.imp ?_
    intro e1 e2 hne x hx y hy hk
    have hx1 := (mem_perEntry.mp hx).2.1
    have hy1 := (mem_perEntry.mp hy).2.1
    exact hne (by rw [← hx1, ← hy1, hk.2])

lemma sortRecords_eq_of_perm {l rs : List FailureRecord} (hpw : l.Pairwise keyNe)
    (hperm : List.Perm rs l) : sortRecords rs = sortRecords l := by
  have h1 : List.Perm (sortRecords rs) (sortRecords l) :=
    (List.perm_insertionSort _ rs).trans (hperm.trans (List.perm_insertionSort _ l).symm)
  have hs1 : List.Sorted recordLE (sortRecords rs) := List.sorted_insertionSort _ _
  have hs2 : List.Sorted recordLE (sortRecords l) := List.sorted_insertionSort _ _
  have hsym : ∀ {x y : FailureRecord}, keyNe x y → keyNe y x := by
    intro x y h hk
    exact h ⟨hk.1.symm, hk.2.symm⟩
  have hpw2 : (sortRecords l).Pairwise keyNe :=
    ((List.perm_insertionSort recordLE l).pairwise_iff hsym).mpr hpw
  have hpw1 : (sortRecords rs).Pairwise keyNe := (h1.pairwise_iff hsym).mpr hpw2
  have hlt1 : List.Sorted recordLT (sortRecords rs) :=
    (hs1.and hpw1).imp (fun h => recordLT_of_recordLE_keyNe h.1 h.2)
  have hlt2 : List.Sorted recordLT (sortRecords l) :=
    (hs2.and hpw2).imp (fun h => recordLT_of_recordLE_keyNe h.1 h.2)
  exact List.eq_of_perm_of_sorted h1 hlt1 hlt2

lemma length_check_all_links (O : String → Outcome) :
    ∀ (m : List (String × List String)),
      (check_all_links m O).length =
        ((m.filter (fun e => isFailure (O e.1).status)).map (fun e => e.2.length)).sum := by
  intro m
  induction m with
  | nil => simp [check_all_links]
  | cons e m ih =>
    rw [check_all_links_cons, List.length_append, ih]
    by_cases hf : isFailure (O e.1).status = true
    · simp [perEntry, hf, length_sortPages, List.filter_cons]
    · simp [perEntry, hf, List.filter_cons]

lemma urls_toFinset_check_all_links (O : String → Outcome) :
    ∀ (m : List (String × List String)), (probedUrls m).Nodup → EntriesWF m →
      ((check_all_links m O).map (fun rec => rec.url)).toFinset =
        ((m.filter (fun e => isFailure (O e.1).status)).map (fun e => e.1)).toFinset := by
  intro m
  induction m with
  | nil => intro _ _; simp [check_all_links]
  | cons e m ih =>
    intro hnd hwf
    have hndm : (probedUrls m).Nodup := by
      simp only [probedUrls, List.map_cons, List.nodup_cons] at hnd
      exact hnd.2
    have hwfm : EntriesWF m := fun x hx => hwf x (List.mem_cons_of_mem _ hx)
    rw [check_all_links_cons, List.map_append, List.toFinset_append]
    by_cases hf : isFailure (O e.1).status = true
    · have hmem : ∀ v, v ∈ (perEntry O e).map (fun rec => rec.url) ↔ v = e.1 := by
        intro v
        simp only [List.mem_map]
        constructor
        · rintro ⟨rec, hrec, rfl⟩
          exact (mem_perEntry.mp hrec).2.1
        · rintro rfl
          obtain ⟨hnodup, hne, hext⟩ := hwf e (List.mem_cons_self _ _)
          obtain ⟨p, hp⟩ := List.exists_mem_of_ne_nil e.2 hne
          exact ⟨⟨p, e.1, (O e.1).status, (O e.1).reason⟩,
            mem_perEntry.mpr ⟨hf, rfl, hp, rfl, rfl⟩, rfl⟩
      have hfin : ((perEntry O e).map (fun rec => rec.url)).toFinset = {e.1} := by
        ext v
        simp [List.mem_toFinset, hmem]
      rw [hfin,
        show (e :: m).filter (fun x => isFailure (O x.1).status)
            = e :: m.filter (fun x => isFailure (O x.1).status) from by
          simp [List.filter_cons, hf],
        List.map_cons, List.toFinset_cons, ih hndm hwfm, Finset.insert_eq]
    · have hnil : perEntry O e = [] := by simp [perEntry, hf]
      rw [hnil]
      simp only [List.map_nil, List.toFinset_nil, Finset.empty_union]
      rw [show (e :: m).filter (fun x => isFailure (O x.1).status)
          = m.filter (fun x => isFailure (O x.1).status) from by
        simp [List.filter_cons, hf]]
      exact ih hndm hwfm

lemma brokenUrls_length_check_all_links (O : String → Outcome)
    (m : List (String × List String)) (hnd : (probedUrls m).Nodup) (hwf : EntriesWF m) :
    (brokenUrls (check_all_links m O)).length
      = (m.filter (fun e => isFailure (O e.1).status)).length := by
  unfold brokenUrls
  rw [← List.card_toFinset, urls_toFinset_check_all_links O m hnd hwf, List.card_toFinset]
  have hsub : ((m.filter (fun e => isFailure (O e.1).status)).map (fun e => e.1)).Nodup := by
    have hs : ((m.filter (fun e => isFailure (O e.1).status)).map (fun e => e.1)).Sublist
        (m.map (fun e => e.1)) := (List.filter_sublist m).map _
    exact hs.nodup hnd
  rw [List.dedup_eq_self.mpr hsub,
    (m.filter (fun e => isFailure (O e.1).status)).length_map]

/-- C5: the rows handed to the reporter are sorted ascending by the
(page, url) key; sorting is insensitive to the completion order (any
permutation of the coordinator output sorts to the same sequence); and
the summary counts are correct: the number of distinct broken URLs
equals the number of link-map entries with failing outcome, and the
number of rows equals the total number of failing document references
(the sum of the reference counts of the failing targets). -/
theorem C5_sorted_report (docs : List (String × List String)) (O : String → Outcome) :
    List.Sorted recordLE (mainResults docs O) ∧
    (∀ rs, List.Perm rs (check_all_links (buildLinkMap docs) O) →
      sortRecords rs = mainResults docs O) ∧
    (brokenUrls (mainResults docs O)).length
      = ((buildLinkMap docs).filter (fun e => isFailure (O e.1).status)).length ∧
    (mainResults docs O).length
      = (((buildLinkMap docs).filter (fun e => isFailure (O e.1).status)).map
          (fun e => e.2.length)).sum := by
  have hnd := nodup_probedUrls_buildLinkMap docs
  have hwf := entriesWF_buildLinkMap docs
  have hperm : List.Perm (mainResults docs O) (check_all_links (buildLinkMap docs) O) :=
    List.perm_insertionSort _ _
  refine ⟨List.sorted_insertionSort _ _, ?_, ?_, ?_⟩
  · intro rs hrs
    exact sortRecords_eq_of_perm (pairwise_keyNe_check_all_links O _ hnd hwf) hrs
  · have h1 : List.Perm ((mainResults docs O).map (fun rec => rec.url)).dedup
        (((check_all_links (buildLinkMap docs) O).map (fun rec => rec.url)).dedup) :=
      (hperm.map (fun rec => rec.url)).dedup
    have h2 : (brokenUrls (mainResults docs O)).length
        = (brokenUrls (check_all_links (buildLinkMap docs) O)).length := h1.length_eq
    rw [h2, brokenUrls_length_check_all_links O _ hnd hwf]
  · rw [hperm.length_eq, length_check_all_links]

/-- C5 witness: a concrete run with two failing targets across two
pages; handing the records to the sorter in a scrambled completion
order yields exactly the report sequence of the run. -/
theorem C5_witness :
    sortRecords
        [⟨"b.html", "http://a.example", none, "Timeout"⟩,
         ⟨"a.html", "http://z.example", none, "Timeout"⟩,
         ⟨"b.html", "http://z.example", none, "Timeout"⟩]
      = mainResults
          [("b.html", ["http://z.example", "http://a.example"]),
           ("a.html", ["http://z.example"])]
          (fun _ => ⟨none, "Timeout"⟩) := by
  have h := C5_sorted_report
    [("b.html", ["http://z.example", "http://a.example"]),
     ("a.html", ["http://z.example"])]
    (fun _ => ⟨none, "Timeout"⟩)
  exact h.2.1 _ (by decide)
